import Mathlib

/-- Whitespace predicate used by the embedded `strip` operations. -/
def pyWS (c : Char) : Bool := c.isWhitespace

/-- Embeds Python `s.lstrip()`. -/
def pyLstrip (l : List Char) : List Char := l.dropWhile pyWS

/-- Embeds Python `s.rstrip()`. -/
def pyRstrip (l : List Char) : List Char := l.rdropWhile pyWS

/-- Embeds Python `s.strip()` (drop whitespace at both ends). -/
def pyStrip (l : List Char) : List Char := pyRstrip (pyLstrip l)

/-- The opening fence marker, the literal string `` ```json ``. -/
def fenceJson : List Char := "```json".toList

/-- The closing fence marker, the literal string `` ``` ``. -/
def fenceEnd : List Char := "```".toList

/-- Embeds the inline sanitization of `compare.py`, lines 175-180:

    cleaned_output = result.stdout.strip()
    if cleaned_output.startswith("```json"):
        cleaned_output = cleaned_output[len("```json"):].lstrip()
    if cleaned_output.endswith("```"):
        cleaned_output = cleaned_output[:-len("```")].rstrip()
-/
def cleanedOutput (s : List Char) : List Char :=
  let c0 := pyStrip s
  let c1 := if fenceJson.isPrefixOf c0 then pyLstrip (c0.drop fenceJson.length) else c0
  if fenceEnd.isSuffixOf c1 then pyRstrip (c1.rdrop fenceEnd.length) else c1

/-- Embeds the content transformation of `clean_json_file` in
`correct_json.py`, lines 16-23 (the file read/write around it is
abstracted away; this is the function from old content to new content):

    cleaned_content = content.strip()
    if cleaned_content.startswith('```json'):
        cleaned_content = cleaned_content.removeprefix('```json')
    if cleaned_content.endswith('```'):
        cleaned_content = cleaned_content.removesuffix('```')
    cleaned_content = cleaned_content.strip()
-/
def clean_json_content (s : List Char) : List Char :=
  let c0 := pyStrip s
  let c1 := if fenceJson.isPrefixOf c0 then c0.drop fenceJson.length else c0
  let c2 := if fenceEnd.isSuffixOf c1 then c1.rdrop fenceEnd.length else c1
  pyStrip c2

/-- JSON documents as handled by the `json` module calls in the source
(`json.load`, `json.loads`, `json.dumps`). Numbers are restricted to
integers and strings to escape-free text, the only shapes this
development evaluates. -/
inductive Json where
  | null
  | bool (b : Bool)
  | num (n : Int)
  | str (s : List Char)
  | arr (elems : List Json)
  | obj (fields : List (List Char × Json))

/-- Scan the body of a quoted string up to the closing quote, returning
the body and the remaining input (escape sequences are outside the
modelled subset). -/
def parseStringBody (l : List Char) : Option (List Char × List Char) :=
  let body := l.takeWhile (fun c => !(c == '"'))
  match l.drop body.length with
  | '"' :: rest => some (body, rest)
  | _ => none

/-- Numeric value of a list of decimal digit characters. -/
def digitsVal (ds : List Char) : Nat :=
  ds.foldl (fun a c => 10 * a + (c.toNat - '0'.toNat)) 0

/-- Scan an integer numeral (optional minus sign, then decimal digits). -/
def parseNumberTok (l : List Char) : Option (Json × List Char) :=
  match l with
  | '-' :: r =>
    let ds := r.takeWhile Char.isDigit
    if ds.isEmpty then none else some (Json.num (-(digitsVal ds : Int)), r.drop ds.length)
  | _ =>
    let ds := l.takeWhile Char.isDigit
    if ds.isEmpty then none else some (Json.num (digitsVal ds), l.drop ds.length)

mutual

/-- Recursive-descent scan of one JSON value, fuelled to stay total. -/
def parseValue : Nat → List Char → Option (Json × List Char)
  | 0, _ => none
  | fuel + 1, l =>
    match pyLstrip l with
    | 'n' :: 'u' :: 'l' :: 'l' :: rest => some (Json.null, rest)
    | 't' :: 'r' :: 'u' :: 'e' :: rest => some (Json.bool true, rest)
    | 'f' :: 'a' :: 'l' :: 's' :: 'e' :: rest => some (Json.bool false, rest)
    | '"' :: rest => (parseStringBody rest).map (fun p => (Json.str p.1, p.2))
    | '[' :: rest =>
      match pyLstrip rest with
      | ']' :: rest2 => some (Json.arr [], rest2)
      | rest2 => (parseElems fuel rest2).map (fun p => (Json.arr p.1, p.2))
    | '{' :: rest =>
      match pyLstrip rest with
      | '}' :: rest2 => some (Json.obj [], rest2)
      | rest2 => (parseMembers fuel rest2).map (fun p => (Json.obj p.1, p.2))
    | l2 => parseNumberTok l2

/-- Scan the comma-separated elements of a non-empty array, up to and
including the closing bracket. -/
def parseElems : Nat → List Char → Option (List Json × List Char)
  | 0, _ => none
  | fuel + 1, l =>
    match parseValue fuel l with
    | none => none
    | some (j, r) =>
      match pyLstrip r with
      | ']' :: r2 => some ([j], r2)
      | ',' :: r2 =>
        match parseElems fuel r2 with
        | none => none
        | some (js, r3) => some (j :: js, r3)
      | _ => none

/-- Scan the comma-separated members of a non-empty object, up to and
including the closing brace. -/
def parseMembers : Nat → List Char → Option (List (List Char × Json) × List Char)
  | 0, _ => none
  | fuel + 1, l =>
    match pyLstrip l with
    | '"' :: r =>
      match parseStringBody r with
      | none => none
      | some (k, r2) =>
        match pyLstrip r2 with
        | ':' :: r3 =>
          match parseValue fuel r3 with
          | none => none
          | some (v, r4) =>
            match pyLstrip r4 with
            | '}' :: r5 => some ([(k, v)], r5)
            | ',' :: r5 =>
              match parseMembers fuel r5 with
              | none => none
              | some (kvs, r6) => some ((k, v) :: kvs, r6)
            | _ => none
        | _ => none
    | _ => none

end

/-- Embeds `json.loads` on the modelled subset: scan one value and
require that only whitespace remains. -/
def parseJson (l : List Char) : Option Json :=
  match parseValue (l.length + 1) l with
  | some (j, rest) => if pyLstrip rest = [] then some j else none
  | none => none

/-- Interleave a separator between the entries of a list of strings. -/
def joinSep (sep : List Char) : List (List Char) → List Char
  | [] => []
  | [x] => x
  | x :: xs => x ++ sep ++ joinSep sep xs

/-- A run of space characters. -/
def spaces (n : Nat) : List Char := List.replicate n ' '

/-- Decimal rendering of an integer. -/
def intDigits (n : Int) : List Char :=
  if n < 0 then '-' :: Nat.toDigits 10 n.natAbs else Nat.toDigits 10 n.natAbs

mutual

/-- Modelled from the spec: "persists the sanitized, parsed document as
pretty-printed structured text". This is the spec-side rendering a
pretty-printing store would produce (the multi-line, two-space-indented
layout of `json.dumps(value, indent=2)`), stated here only to be
compared against what the code actually writes; no such rendering
exists anywhere in the source. -/
def dumpsIndent2 (lvl : Nat) : Json → List Char
  | Json.null => "null".toList
  | Json.bool true => "true".toList
  | Json.bool false => "false".toList
  | Json.num n => intDigits n
  | Json.str s => '"' :: (s ++ ['"'])
  | Json.arr [] => ['[', ']']
  | Json.arr (e :: es) =>
    '[' :: '\n' :: (joinSep (',' :: '\n' :: [])
        (dumpsItems (lvl + 1) (e :: es)) ++ '\n' :: (spaces (2 * lvl) ++ [']']))
  | Json.obj [] => ['{', '}']
  | Json.obj (kv :: kvs) =>
    '{' :: '\n' :: (joinSep (',' :: '\n' :: [])
        (dumpsFields (lvl + 1) (kv :: kvs)) ++ '\n' :: (spaces (2 * lvl) ++ ['}']))

/-- Render each array element on its own indented line. -/
def dumpsItems (lvl : Nat) : List Json → List (List Char)
  | [] => []
  | e :: es => (spaces (2 * lvl) ++ dumpsIndent2 lvl e) :: dumpsItems lvl es

/-- Render each object member on its own indented line. -/
def dumpsFields (lvl : Nat) : List (List Char × Json) → List (List Char)
  | [] => []
  | (k, v) :: kvs =>
    (spaces (2 * lvl) ++ ('"' :: (k ++ ['"', ':', ' ']) ++ dumpsIndent2 lvl v))
      :: dumpsFields lvl kvs

end

/-- One rule record; `.get` access in the source makes every field
optional. Only the fields the scan tool reads are modelled. -/
structure Rule where
  id : Option String
  title : Option String

/-- One check record inside a report. -/
structure Check where
  id : Option String
  result : Option String

/-- One parsed report document, restricted to the fields
`generate_html_report` reads (`repoName` via `.get`, `checks` via
`.get('checks', [])`). -/
structure Report where
  repoName : Option String
  checks : List Check

/-- Embeds the cell loop of `generate_html_report`, `compare.py` lines
66-76: scan the checks for the first one whose id equals the rule's id;
on a match render by the lowercased `result` and stop. -/
def resultSymbol (ruleId : Option String) : List Check → String
  | [] => "❓"
  | ch :: rest =>
    if ch.id = ruleId then
      if (ch.result.getD "").toLower = "pass" then "✅"
      else if (ch.result.getD "").toLower = "fail" then "❌"
      else "❓"
    else resultSymbol ruleId rest

/-- Embeds `reports.sort(key=lambda x: x.get('repoName', ''))`,
`compare.py` line 32 (Python's stable sort, modelled by `mergeSort`). -/
def sortReports (reports : List Report) : List Report :=
  reports.mergeSort (fun a b => decide (a.repoName.getD "" ≤ b.repoName.getD ""))

/-- The summary matrix carried by the generated page: one header cell
per report column and one row (title and cells) per rule. The HTML
boilerplate around it is constant text and is abstracted away. -/
structure HtmlTable where
  header : List String
  rows : List (String × List String)

/-- Outcome of `generate_html_report`: the document written to
`index.html` (`none` when generation is skipped and nothing is
written), plus whether the no-report-files warning was printed. -/
structure HtmlGenResult where
  output : Option HtmlTable
  warnedNoFiles : Bool

/-- Embeds `generate_html_report` (`compare.py` lines 8-94). One entry
of `reportFiles` per file matching `*-report.json` in the output
directory, `none` when reading or parsing that file fails (the
`except` at lines 27-29 skips it). With no matching files at all it
warns and returns without writing (lines 17-19). -/
def generate_html_report (reportFiles : List (Option Report)) (rules : List Rule) :
    HtmlGenResult :=
  if reportFiles.isEmpty then ⟨none, true⟩
  else
    let reports := sortReports (reportFiles.filterMap id)
    ⟨some ⟨reports.map (fun r => r.repoName.getD "Unnamed Repo"),
      rules.map (fun rule =>
        (rule.title.getD "Untitled Rule",
         reports.map (fun rep => resultSymbol rule.id rep.checks)))⟩, false⟩

/-- Outcome of attempting the external `gemini` invocation for one
repository (`subprocess.run` with `check=True`, `compare.py` lines
162-169): normal exit with captured stdout, non-zero exit
(`CalledProcessError`), or a missing executable (`FileNotFoundError`). -/
inductive AgentOutcome where
  | ok (stdout : String)
  | calledProcessError
  | fileNotFound
deriving DecidableEq

/-- One immediate child of the repository base path, together with the
agent outcome its evaluation would produce. -/
structure DirEntry where
  name : String
  isDir : Bool
  hasGit : Bool
  outcome : AgentOutcome
deriving DecidableEq

/-- Embeds `report_filename = f"{repo_name}-report.json"`,
`compare.py` line 172. -/
def report_filename (repoName : String) : String := repoName ++ "-report.json"

/-- Embeds the clean-validate-save step for one repository,
`compare.py` lines 171-191: sanitize the captured stdout, validate it
with `json.loads`, and on success write the sanitized text under the
deterministic filename; on parse failure write nothing. -/
def saveReportStep (repoName : String) (stdout : String) : Option (String × String) :=
  let cleaned := cleanedOutput stdout.toList
  match parseJson cleaned with
  | none => none
  | some _ => some (report_filename repoName, String.mk cleaned)

/-- Observable effects of the repository loop: report files written
(name and content), repositories submitted to the agent, repositories
skipped with the not-a-Git-repository notice, repositories whose
failure was logged to stderr, and whether `sys.exit(1)` aborted the
loop (missing agent executable). -/
structure LoopResult where
  written : List (String × String)
  evaluated : List String
  skippedNotice : List String
  errors : List String
  aborted : Bool

/-- Embeds the repository loop of `run_evaluation`, `compare.py` lines
149-205, over the already-filtered `repo_list`. -/
def processRepos : List DirEntry → LoopResult
  | [] => ⟨[], [], [], [], false⟩
  | e :: rest =>
    if e.hasGit then
      match e.outcome with
      | AgentOutcome.fileNotFound => ⟨[], [e.name], [], [], true⟩
      | AgentOutcome.calledProcessError =>
        let r := processRepos rest
        ⟨r.written, e.name :: r.evaluated, r.skippedNotice, e.name :: r.errors, r.aborted⟩
      | AgentOutcome.ok out =>
        match saveReportStep e.name out with
        | none =>
          let r := processRepos rest
          ⟨r.written, e.name :: r.evaluated, r.skippedNotice, e.name :: r.errors, r.aborted⟩
        | some file =>
          let r := processRepos rest
          ⟨file :: r.written, e.name :: r.evaluated, r.skippedNotice, r.errors, r.aborted⟩
    else
      let r := processRepos rest
      ⟨r.written, r.evaluated, e.name :: r.skippedNotice, r.errors, r.aborted⟩

/-- Outcome of loading the rules file (`compare.py` lines 109-118):
missing file, unreadable or unparseable file, or the parsed rules. -/
inductive RulesLoad where
  | fileNotFound
  | parseError
  | ok (rules : List Rule)

/-- Environment a scan runs against: whether the reports directory
could be created, the rules-file load outcome, whether the base path
is a directory, and the base path's children. -/
structure RunEnv where
  mkdirOk : Bool
  rulesLoad : RulesLoad
  baseIsDir : Bool
  entries : List DirEntry

/-- Observable result of `run_evaluation`: process exit status plus
the loop's effects. -/
structure RunResult where
  exitCode : Nat
  written : List (String × String)
  evaluated : List String
  skippedNotice : List String
  errors : List String

/-- Embeds `repo_list = [d for d in os.listdir(...) if os.path.isdir(...)]`,
`compare.py` line 147. -/
def repoListOf (entries : List DirEntry) : List DirEntry := entries.filter (·.isDir)

/-- Embeds `run_evaluation` (`compare.py` lines 96-210): the three
startup checks each exit with status 1 before any repository is
touched; then the repository loop runs; a missing agent executable
exits with status 1 mid-loop; otherwise the script finishes (the final
`generate_html_report` call catches its own write errors) and the
process exits with status 0. -/
def run_evaluation (env : RunEnv) : RunResult :=
  if ¬ env.mkdirOk then ⟨1, [], [], [], []⟩
  else
    match env.rulesLoad with
    | RulesLoad.fileNotFound => ⟨1, [], [], [], []⟩
    | RulesLoad.parseError => ⟨1, [], [], [], []⟩
    | RulesLoad.ok _rules =>
      if ¬ env.baseIsDir then ⟨1, [], [], [], []⟩
      else
        let r := processRepos (repoListOf env.entries)
        ⟨if r.aborted then 1 else 0, r.written, r.evaluated, r.skippedNotice, r.errors⟩

/-- Report file an entry of the filtered repo list contributes when the
loop reaches it without aborting. -/
def writeOf (e : DirEntry) : Option (String × String) :=
  if e.hasGit then
    match e.outcome with
    | AgentOutcome.ok out => saveReportStep e.name out
    | _ => none
  else none

/-- Name an entry contributes to the stderr failure log. -/
def errOf (e : DirEntry) : Option String :=
  if e.hasGit then
    match e.outcome with
    | AgentOutcome.calledProcessError => some e.name
    | AgentOutcome.ok out =>
      if (saveReportStep e.name out).isSome then none else some e.name
    | AgentOutcome.fileNotFound => none
  else none

/-- A per-repository soft failure: the agent exited non-zero, or its
sanitized output failed to parse as JSON. -/
def softFails (e : DirEntry) : Prop :=
  e.outcome = AgentOutcome.calledProcessError
  ∨ ∃ out, e.outcome = AgentOutcome.ok out
      ∧ parseJson (cleanedOutput out.toList) = none

/-- Sample scan environment used by closed instances: one repository
that succeeds, one whose agent exits non-zero, one whose output does
not parse, one directory without `.git`, and one non-directory child. -/
def envSample : RunEnv :=
  ⟨true, RulesLoad.ok [], true,
   [⟨"alpha", true, true, AgentOutcome.ok "\x7b\"a\":1\x7d"⟩,
    ⟨"beta", true, true, AgentOutcome.calledProcessError⟩,
    ⟨"gamma", true, true, AgentOutcome.ok "oops"⟩,
    ⟨"delta", true, false, AgentOutcome.ok "x"⟩,
    ⟨"file.txt", false, false, AgentOutcome.ok "x"⟩]⟩

/-! ### Theorems -/

example : cleanedOutput "```json\n\x7b\"a\":1\x7d\n```".toList = "\x7b\"a\":1\x7d".toList := by decide

example : clean_json_content "```json\n\x7b\"a\":1\x7d\n```".toList = "\x7b\"a\":1\x7d".toList := by decide

example : cleanedOutput "``````".toList = "```".toList := by decide

example : cleanedOutput "```".toList = "".toList := by decide

lemma dropWhile_append_cons {α : Type*} (p : α → Bool) (u v : List α) (a : α)
    (ha : ¬ p a) : (u ++ a :: v).dropWhile p = u.dropWhile p ++ a :: v := by
  induction u with
  | nil => simp [List.dropWhile_cons, ha]
  | cons b u ih =>
    by_cases hb : p b
    · simpa [List.dropWhile_cons, hb] using ih
    · simp [List.dropWhile_cons, hb]

lemma dropWhile_fixed_of_prefix {α : Type*} {p : α → Bool} {l t : List α}
    (hl : l.dropWhile p = l) (ht : t <+: l) : t.dropWhile p = t := by
  rw [List.dropWhile_eq_self_iff] at hl ⊢
  intro h0
  have hlen : 0 < l.length := lt_of_lt_of_le h0 ht.length_le
  have hget : t.get ⟨0, h0⟩ = l.get ⟨0, hlen⟩ := by
    simpa [List.get_eq_getElem] using ht.getElem (n := 0) h0
  rw [hget]
  exact hl hlen

lemma rdropWhile_fixed_of_suffix {α : Type*} {p : α → Bool} {l t : List α}
    (hl : l.rdropWhile p = l) (ht : t <:+ l) : t.rdropWhile p = t := by
  rw [List.rdropWhile, List.reverse_eq_iff] at hl ⊢
  exact dropWhile_fixed_of_prefix hl (Iff.mpr List.reverse_prefix ht)

lemma pyLstrip_pyStrip (l : List Char) : pyLstrip (pyStrip l) = pyStrip l :=
  dropWhile_fixed_of_prefix (List.dropWhile_idempotent _ _) ( List.rdropWhile_prefix _ _)

lemma pyRstrip_pyStrip (l : List Char) : pyRstrip (pyStrip l) = pyStrip l :=
  List.rdropWhile_idempotent _ _

lemma pyStrip_pyStrip (l : List Char) : pyStrip (pyStrip l) = pyStrip l := by
  have h : pyStrip (pyStrip l) = pyRstrip (pyLstrip (pyStrip l)) := rfl
  rw [h, pyLstrip_pyStrip, pyRstrip_pyStrip]

lemma pyRstrip_drop {l : List Char} (hl : pyRstrip l = l) (n : Nat) :
    pyRstrip (l.drop n) = l.drop n :=
  rdropWhile_fixed_of_suffix hl (List.drop_suffix n l)

lemma pyLstrip_prefix_fixed {l t : List Char} (hl : pyLstrip l = l) (ht : t <+: l) :
    pyLstrip t = t :=
  dropWhile_fixed_of_prefix hl ht

lemma pyRstrip_pyLstrip_of_fixed {l : List Char} (hl : pyRstrip l = l) :
    pyRstrip (pyLstrip l) = pyLstrip l :=
  rdropWhile_fixed_of_suffix hl (List.dropWhile_suffix _)

lemma pyLstrip_append_fenceEnd (u : List Char) :
    pyLstrip (u ++ fenceEnd) = pyLstrip u ++ fenceEnd := by
  have h : fenceEnd = '`' :: ['`', '`'] := rfl
  rw [h]
  exact dropWhile_append_cons _ u _ _ (by decide)

lemma fenceEnd_suffix_pyLstrip_iff {l : List Char} :
    fenceEnd <:+ pyLstrip l ↔ fenceEnd <:+ l := by
  constructor
  · intro h
    exact h.trans (List.dropWhile_suffix _)
  · rintro ⟨u, hu⟩
    rw [← hu, pyLstrip_append_fenceEnd]
    exact List.suffix_append _ _

/-- The two fence-stripping transformations agree on every input. -/
lemma cleanedOutput_eq_clean_json_content (s : List Char) :
    cleanedOutput s = clean_json_content s := by
  simp only [cleanedOutput, clean_json_content]
  have hl0 : pyLstrip (pyStrip s) = pyStrip s := pyLstrip_pyStrip s
  have hr0 : pyRstrip (pyStrip s) = pyStrip s := pyRstrip_pyStrip s
  by_cases hpre : fenceJson.isPrefixOf (pyStrip s) = true
  · rw [if_pos hpre, if_pos hpre]
    have hrd : pyRstrip ((pyStrip s).drop fenceJson.length)
        = (pyStrip s).drop fenceJson.length := pyRstrip_drop hr0 _
    by_cases hsuf : fenceEnd <:+ (pyStrip s).drop fenceJson.length
    · have h1 : fenceEnd.isSuffixOf (pyLstrip ((pyStrip s).drop fenceJson.length)) = true := by
        rw [List.isSuffixOf_iff_suffix]
        exact fenceEnd_suffix_pyLstrip_iff.mpr hsuf
      have h2 : fenceEnd.isSuffixOf ((pyStrip s).drop fenceJson.length) = true :=
        List.isSuffixOf_iff_suffix.mpr hsuf
      rw [if_pos h1, if_pos h2]
      obtain ⟨u, hu⟩ := hsuf
      rw [← hu, pyLstrip_append_fenceEnd, List.rdrop_append_length, List.rdrop_append_length]
      rfl
    · have h1 : ¬ fenceEnd.isSuffixOf (pyLstrip ((pyStrip s).drop fenceJson.length)) = true := by
        rw [List.isSuffixOf_iff_suffix, fenceEnd_suffix_pyLstrip_iff]
        exact hsuf
      have h2 : ¬ fenceEnd.isSuffixOf ((pyStrip s).drop fenceJson.length) = true := by
        rw [List.isSuffixOf_iff_suffix]
        exact hsuf
      rw [if_neg h1, if_neg h2]
      exact (pyRstrip_pyLstrip_of_fixed hrd).symm
  · rw [if_neg hpre, if_neg hpre]
    by_cases hsuf : fenceEnd <:+ pyStrip s
    · have h2 : fenceEnd.isSuffixOf (pyStrip s) = true :=
        List.isSuffixOf_iff_suffix.mpr hsuf
      rw [if_pos h2, if_pos h2]
      obtain ⟨u, hu⟩ := hsuf
      have hu' : pyLstrip u = u :=
        pyLstrip_prefix_fixed hl0 (hu ▸ List.prefix_append u fenceEnd)
      rw [← hu, List.rdrop_append_length]
      show pyRstrip u = pyRstrip (pyLstrip u)
      rw [hu']
    · have h2 : ¬ fenceEnd.isSuffixOf (pyStrip s) = true := by
        rw [List.isSuffixOf_iff_suffix]
        exact hsuf
      rw [if_neg h2, if_neg h2]
      show pyStrip s = pyRstrip (pyLstrip (pyStrip s))
      rw [hl0, hr0]

/-- The sanitizer always returns whitespace-trimmed text. -/
lemma pyStrip_cleanedOutput (s : List Char) :
    pyStrip (cleanedOutput s) = cleanedOutput s := by
  rw [cleanedOutput_eq_clean_json_content]
  simp only [clean_json_content]
  exact pyStrip_pyStrip _

/-- The sanitizer fixes any trimmed text carrying neither fence marker. -/
lemma cleanedOutput_eq_self {t : List Char} (hstr : pyStrip t = t)
    (hp : ¬ fenceJson.isPrefixOf t = true) (hs : ¬ fenceEnd.isSuffixOf t = true) :
    cleanedOutput t = t := by
  simp only [cleanedOutput]
  rw [hstr, if_neg hp, if_neg hs]

example : parseJson "\x7b\"a\":1\x7d".toList
    = some (Json.obj [("a".toList, Json.num 1)]) := by rfl

example : parseJson "not json".toList = none := by rfl

example : parseJson " \x7b \"checks\" : [ \x7b \"id\" : \"r1\", \"result\" : \"Pass\" \x7d ] \x7d ".toList
    = some (Json.obj [("checks".toList,
        Json.arr [Json.obj [("id".toList, Json.str "r1".toList),
                            ("result".toList, Json.str "Pass".toList)]])]) := by rfl

example : dumpsIndent2 0 (Json.obj [("a".toList, Json.num 1)])
    = "\x7b\n  \"a\": 1\n\x7d".toList := by rfl

/-- C1: for every rule and every loaded report, the rendered cell is
determined by the first check whose id equals the rule's id — the pass
marker if its result lowercases to "pass", the fail marker if it
lowercases to "fail", the unknown marker for any other value — and is
the unknown marker when no check's id matches. -/
theorem resultSymbol_first_match (ruleId : Option String) (checks : List Check) :
    resultSymbol ruleId checks =
      match checks.find? (fun ch => decide (ch.id = ruleId)) with
      | none => "❓"
      | some ch =>
        if (ch.result.getD "").toLower = "pass" then "✅"
        else if (ch.result.getD "").toLower = "fail" then "❌"
        else "❓" := by
  induction checks with
  | nil => rfl
  | cons ch rest ih =>
    by_cases h : ch.id = ruleId
    · simp [resultSymbol, List.find?_cons, h]
    · simp [resultSymbol, List.find?_cons, h, ih]

/-- C2: for a rules list with N rules and M report files that all parse,
the summary table has exactly N rows in stored rule order and M columns,
the columns being the reports sorted ascending by repoName. -/
theorem generate_html_report_dims (rules : List Rule) (reports : List Report)
    (h : reports ≠ []) :
    ∃ t : HtmlTable,
      (generate_html_report (reports.map some) rules).output = some t
      ∧ t.rows.length = rules.length
      ∧ t.rows.map Prod.fst = rules.map (fun r => r.title.getD "Untitled Rule")
      ∧ t.header.length = reports.length
      ∧ (∀ row ∈ t.rows, row.2.length = reports.length)
      ∧ t.header = (sortReports reports).map (fun r => r.repoName.getD "Unnamed Repo")
      ∧ (sortReports reports).Pairwise
          (fun a b => a.repoName.getD "" ≤ b.repoName.getD "")
      ∧ (sortReports reports).Perm reports := by
  have hne : (reports.map some).isEmpty = false := by
    rw [List.isEmpty_eq_false]
    simpa using h
  have hrep : (reports.map some).filterMap id = reports := by
    rw [List.filterMap_map]
    simp [Function.comp]
  refine ⟨⟨(sortReports reports).map (fun r => r.repoName.getD "Unnamed Repo"),
      rules.map (fun rule => (rule.title.getD "Untitled Rule",
        (sortReports reports).map (fun rep => resultSymbol rule.id rep.checks)))⟩,
      ?_, ?_, ?_, ?_, ?_, rfl, ?_, ?_⟩
  · simp [generate_html_report, hne, hrep]
  · simp
  · simp
  · simp [sortReports]
  · intro row hrow
    simp only [List.mem_map] at hrow
    obtain ⟨rule, _, hrule⟩ := hrow
    simp [← hrule, sortReports]
  · refine List.Pairwise.imp ?_ (List.sorted_mergeSort ?_ ?_ reports)
    · intro a b hab
      exact of_decide_eq_true hab
    · intro a b c hab hbc
      exact decide_eq_true
        (le_trans (of_decide_eq_true hab) (of_decide_eq_true hbc))
    · intro a b
      simpa [Bool.or_eq_true, decide_eq_true_eq] using
        le_total (a.repoName.getD "") (b.repoName.getD "")
  · exact List.mergeSort_perm reports _

/-- Closed instance of the C2 theorem at one rule and one report. -/
theorem generate_html_report_dims_witness :
    ∃ t : HtmlTable,
      (generate_html_report ([(⟨some "alpha", []⟩ : Report)].map some)
          [⟨some "r1", some "T"⟩]).output = some t
      ∧ t.rows.length = [(⟨some "r1", some "T"⟩ : Rule)].length
      ∧ t.rows.map Prod.fst
          = [(⟨some "r1", some "T"⟩ : Rule)].map (fun r => r.title.getD "Untitled Rule")
      ∧ t.header.length = [(⟨some "alpha", []⟩ : Report)].length
      ∧ (∀ row ∈ t.rows, row.2.length = [(⟨some "alpha", []⟩ : Report)].length)
      ∧ t.header = (sortReports [⟨some "alpha", []⟩]).map (fun r => r.repoName.getD "Unnamed Repo")
      ∧ (sortReports [⟨some "alpha", []⟩]).Pairwise
          (fun a b => a.repoName.getD "" ≤ b.repoName.getD "")
      ∧ (sortReports [⟨some "alpha", []⟩]).Perm [⟨some "alpha", []⟩] :=
  generate_html_report_dims [⟨some "r1", some "T"⟩] [⟨some "alpha", []⟩] (by simp)

/-- C7: with no file matching the report pattern, the renderer warns,
writes nothing, and produces no document. -/
theorem generate_html_report_empty (rules : List Rule) :
    (generate_html_report [] rules).output = none
    ∧ (generate_html_report [] rules).warnedNoFiles = true :=
  ⟨rfl, rfl⟩

/-- C8: a missing rules file makes the scan exit with status 1 before
any repository is evaluated and before any report file is written. -/
theorem run_evaluation_rules_missing (env : RunEnv)
    (h : env.rulesLoad = RulesLoad.fileNotFound) :
    (run_evaluation env).exitCode = 1 ∧ (run_evaluation env).written = []
      ∧ (run_evaluation env).evaluated = [] := by
  by_cases hm : env.mkdirOk <;> simp [run_evaluation, hm, h]

/-- Closed instance of the C8 theorem. -/
theorem run_evaluation_rules_missing_witness :
    (run_evaluation ⟨true, RulesLoad.fileNotFound, true, []⟩).exitCode = 1
    ∧ (run_evaluation ⟨true, RulesLoad.fileNotFound, true, []⟩).written = []
    ∧ (run_evaluation ⟨true, RulesLoad.fileNotFound, true, []⟩).evaluated = [] :=
  run_evaluation_rules_missing _ rfl

/-- C10: when report files exist but none of them parses, the renderer
still writes a document whose matrix has one row per rule and zero
columns; generation is skipped only when no matching file exists. -/
theorem generate_html_report_unparsable_only (rules : List Rule)
    (files : List (Option Report)) (hne : files ≠ [])
    (hall : ∀ f ∈ files, f = none) :
    (generate_html_report files rules).output
      = some ⟨[], rules.map (fun r => (r.title.getD "Untitled Rule", []))⟩
    ∧ (generate_html_report files rules).warnedNoFiles = false := by
  have h0 : files.isEmpty = false := by
    rw [List.isEmpty_eq_false]
    exact hne
  have h1 : files.filterMap id = [] := List.filterMap_eq_nil_iff.mpr hall
  constructor <;> simp [generate_html_report, h0, h1, sortReports]

/-- Closed instance of the C10 theorem: one unparsable file, one rule. -/
theorem generate_html_report_unparsable_only_witness :
    (generate_html_report [none] [⟨some "r1", some "T"⟩]).output
      = some ⟨[], [(⟨some "r1", some "T"⟩ : Rule)].map
          (fun r => (r.title.getD "Untitled Rule", []))⟩
    ∧ (generate_html_report [none] [⟨some "r1", some "T"⟩]).warnedNoFiles = false :=
  generate_html_report_unparsable_only [⟨some "r1", some "T"⟩] [none]
    (by simp) (by simp)

lemma processRepos_no_abort (l : List DirEntry)
    (h : ∀ e ∈ l, e.outcome ≠ AgentOutcome.fileNotFound) :
    processRepos l =
      ⟨l.filterMap writeOf, (l.filter (·.hasGit)).map (·.name),
       (l.filter (fun e => !e.hasGit)).map (·.name), l.filterMap errOf, false⟩ := by
  induction l with
  | nil => rfl
  | cons e rest ih =>
    have hrest : ∀ e' ∈ rest, e'.outcome ≠ AgentOutcome.fileNotFound :=
      fun e' he' => h e' (List.mem_cons_of_mem _ he')
    have he : e.outcome ≠ AgentOutcome.fileNotFound := h e (List.mem_cons_self _ _)
    by_cases hg : e.hasGit
    · cases ho : e.outcome with
      | fileNotFound => exact absurd ho he
      | calledProcessError =>
        simp [processRepos, hg, ho, ih hrest, writeOf, errOf,
          List.filterMap_cons, List.filter_cons]
      | ok out =>
        cases hs : saveReportStep e.name out with
        | none =>
          simp [processRepos, hg, ho, hs, ih hrest, writeOf, errOf,
            List.filterMap_cons, List.filter_cons]
        | some file =>
          simp [processRepos, hg, ho, hs, ih hrest, writeOf, errOf,
            List.filterMap_cons, List.filter_cons]
    · simp [processRepos, hg, ih hrest, writeOf, errOf,
        List.filterMap_cons, List.filter_cons]

lemma report_filename_inj {a b : String} (h : report_filename a = report_filename b) :
    a = b := by
  unfold report_filename at h
  have hd := congrArg String.data h
  simp only [String.data_append] at hd
  have hdata := List.append_cancel_right hd
  rcases a with ⟨la⟩
  rcases b with ⟨lb⟩
  exact congrArg String.mk hdata

lemma saveReportStep_fst {n out : String} {p : String × String}
    (h : saveReportStep n out = some p) : p.1 = report_filename n := by
  simp only [saveReportStep] at h
  cases hp : parseJson (cleanedOutput out.toList) with
  | none => rw [hp] at h; simp at h
  | some j =>
    rw [hp] at h
    simp only [Option.some_inj] at h
    rw [← h]

lemma writeOf_fst {e : DirEntry} {p : String × String} (h : writeOf e = some p) :
    p.1 = report_filename e.name := by
  unfold writeOf at h
  by_cases hg : e.hasGit
  · rw [if_pos hg] at h
    cases ho : e.outcome with
    | ok out =>
      rw [ho] at h
      simp only at h
      exact saveReportStep_fst h
    | calledProcessError => rw [ho] at h; simp at h
    | fileNotFound => rw [ho] at h; simp at h
  · rw [if_neg hg] at h
    simp at h

/-- C5: when the agent executable is present, agent failures and
unparseable outputs are soft: the run exits 0, every Git repository is
still evaluated, and each softly-failing repository gets no report
file but an error log entry. -/
theorem run_evaluation_soft_failures (env : RunEnv) (rules : List Rule)
    (hm : env.mkdirOk = true) (hr : env.rulesLoad = RulesLoad.ok rules)
    (hb : env.baseIsDir = true)
    (hnf : ∀ e ∈ env.entries, e.outcome ≠ AgentOutcome.fileNotFound)
    (hnd : (env.entries.map (fun e => e.name)).Nodup) :
    (run_evaluation env).exitCode = 0
    ∧ (run_evaluation env).evaluated
        = ((repoListOf env.entries).filter (·.hasGit)).map (·.name)
    ∧ ∀ e ∈ env.entries, e.isDir = true → e.hasGit = true → softFails e →
        report_filename e.name ∉ (run_evaluation env).written.map Prod.fst
        ∧ e.name ∈ (run_evaluation env).errors := by
  have hnf' : ∀ e ∈ repoListOf env.entries, e.outcome ≠ AgentOutcome.fileNotFound :=
    fun e he => hnf e (List.mem_filter.mp he).1
  have hchar := processRepos_no_abort (repoListOf env.entries) hnf'
  have hrun : run_evaluation env =
      ⟨0, (repoListOf env.entries).filterMap writeOf,
       ((repoListOf env.entries).filter (·.hasGit)).map (·.name),
       ((repoListOf env.entries).filter (fun e => !e.hasGit)).map (·.name),
       (repoListOf env.entries).filterMap errOf⟩ := by
    simp [run_evaluation, hm, hr, hb, hchar]
  refine ⟨by rw [hrun], by rw [hrun], ?_⟩
  intro e he hdir hgit hsoft
  have heR : e ∈ repoListOf env.entries := List.mem_filter.mpr ⟨he, hdir⟩
  have hwe : writeOf e = none := by
    unfold writeOf
    rw [if_pos hgit]
    rcases hsoft with hcpe | ⟨out, ho, hp⟩
    · rw [hcpe]
    · rw [ho]
      show saveReportStep e.name out = none
      have hp' : parseJson (cleanedOutput out.data) = none := hp
      simp only [saveReportStep]
      simp [hp']
  constructor
  · rw [hrun]
    intro hmem
    simp only [List.mem_map] at hmem
    obtain ⟨p, hpmem, hp1⟩ := hmem
    simp only [List.mem_filterMap] at hpmem
    obtain ⟨e', he'mem, hwe'⟩ := hpmem
    have hname : report_filename e'.name = report_filename e.name := by
      rw [← hp1, writeOf_fst hwe']
    have hnames : e'.name = e.name := report_filename_inj hname
    have he'entries : e' ∈ env.entries := (List.mem_filter.mp he'mem).1
    have hee : e' = e := List.inj_on_of_nodup_map hnd he'entries he hnames
    rw [hee, hwe] at hwe'
    exact Option.noConfusion hwe'
  · rw [hrun]
    simp only [List.mem_filterMap]
    refine ⟨e, heR, ?_⟩
    unfold errOf
    rw [if_pos hgit]
    rcases hsoft with hcpe | ⟨out, ho, hp⟩
    · rw [hcpe]
    · rw [ho]
      show (if (saveReportStep e.name out).isSome then none else some e.name)
        = some e.name
      have hp' : parseJson (cleanedOutput out.data) = none := hp
      simp only [saveReportStep]
      simp [hp']

/-- Closed instance of the C5 theorem on `envSample`. -/
theorem run_evaluation_soft_failures_witness :
    (run_evaluation envSample).exitCode = 0
    ∧ (run_evaluation envSample).evaluated
        = ((repoListOf envSample.entries).filter (·.hasGit)).map (·.name)
    ∧ ∀ e ∈ envSample.entries, e.isDir = true → e.hasGit = true → softFails e →
        report_filename e.name ∉ (run_evaluation envSample).written.map Prod.fst
        ∧ e.name ∈ (run_evaluation envSample).errors :=
  run_evaluation_soft_failures envSample [] rfl rfl rfl (by decide) (by decide)

/-- C6: exactly the immediate child directories containing a `.git`
subdirectory are submitted to the agent; a child directory without one
is skipped with a notice and never evaluated. -/
theorem run_evaluation_git_filter (env : RunEnv) (rules : List Rule)
    (hm : env.mkdirOk = true) (hr : env.rulesLoad = RulesLoad.ok rules)
    (hb : env.baseIsDir = true)
    (hnf : ∀ e ∈ env.entries, e.outcome ≠ AgentOutcome.fileNotFound)
    (hnd : (env.entries.map (fun e => e.name)).Nodup) :
    (run_evaluation env).evaluated
        = ((repoListOf env.entries).filter (·.hasGit)).map (·.name)
    ∧ (run_evaluation env).skippedNotice
        = ((repoListOf env.entries).filter (fun e => !e.hasGit)).map (·.name)
    ∧ ∀ e ∈ env.entries, e.isDir = true → e.hasGit = false →
        e.name ∈ (run_evaluation env).skippedNotice
        ∧ e.name ∉ (run_evaluation env).evaluated := by
  have hnf' : ∀ e ∈ repoListOf env.entries, e.outcome ≠ AgentOutcome.fileNotFound :=
    fun e he => hnf e (List.mem_filter.mp he).1
  have hchar := processRepos_no_abort (repoListOf env.entries) hnf'
  have hrun : run_evaluation env =
      ⟨0, (repoListOf env.entries).filterMap writeOf,
       ((repoListOf env.entries).filter (·.hasGit)).map (·.name),
       ((repoListOf env.entries).filter (fun e => !e.hasGit)).map (·.name),
       (repoListOf env.entries).filterMap errOf⟩ := by
    simp [run_evaluation, hm, hr, hb, hchar]
  refine ⟨by rw [hrun], by rw [hrun], ?_⟩
  intro e he hdir hgit
  have heR : e ∈ repoListOf env.entries := List.mem_filter.mpr ⟨he, hdir⟩
  constructor
  · rw [hrun]
    simp only [List.mem_map]
    refine ⟨e, ?_, rfl⟩
    exact List.mem_filter.mpr ⟨heR, by rw [hgit]; rfl⟩
  · rw [hrun]
    intro hmem
    simp only [List.mem_map] at hmem
    obtain ⟨e', he'mem, hname⟩ := hmem
    have he'f := List.mem_filter.mp he'mem
    have he'entries : e' ∈ env.entries := (List.mem_filter.mp he'f.1).1
    have hee : e' = e := List.inj_on_of_nodup_map hnd he'entries he hname
    rw [hee] at he'f
    rw [hgit] at he'f
    exact Bool.noConfusion he'f.2

/-- Closed instance of the C6 theorem on `envSample`. -/
theorem run_evaluation_git_filter_witness :
    (run_evaluation envSample).evaluated
        = ((repoListOf envSample.entries).filter (·.hasGit)).map (·.name)
    ∧ (run_evaluation envSample).skippedNotice
        = ((repoListOf envSample.entries).filter (fun e => !e.hasGit)).map (·.name)
    ∧ ∀ e ∈ envSample.entries, e.isDir = true → e.hasGit = false →
        e.name ∈ (run_evaluation envSample).skippedNotice
        ∧ e.name ∉ (run_evaluation envSample).evaluated :=
  run_evaluation_git_filter envSample [] rfl rfl rfl (by decide) (by decide)

/-- C9: the inline sanitization of the scan tool and the fence-stripping
utility's content transformation compute the same function on every
input string. -/
theorem cleanedOutput_refines_clean_json_content (s : List Char) :
    cleanedOutput s = clean_json_content s :=
  cleanedOutput_eq_clean_json_content s

/-- C4 counterexample: the sanitizer is not idempotent — on six
backticks one application leaves three backticks and a second one
removes them — and untrimmed fence-free text is not left unchanged. -/
theorem cleanedOutput_not_idempotent :
    cleanedOutput (cleanedOutput "``````".toList) ≠ cleanedOutput "``````".toList
    ∧ cleanedOutput " a ".toList ≠ " a ".toList :=
  ⟨by decide, by decide⟩

/-- C4 (amended): the sanitizer is idempotent on every input whose
sanitized form neither starts with the opening fence nor ends with the
closing fence; it fixes trimmed fence-free text; and it maps the fenced
example to its inner JSON text. -/
theorem cleanedOutput_conditional_idempotent :
    (∀ s : List Char, ¬ fenceJson.isPrefixOf (cleanedOutput s) = true →
        ¬ fenceEnd.isSuffixOf (cleanedOutput s) = true →
        cleanedOutput (cleanedOutput s) = cleanedOutput s)
    ∧ (∀ t : List Char, pyStrip t = t → ¬ fenceJson.isPrefixOf t = true →
        ¬ fenceEnd.isSuffixOf t = true → cleanedOutput t = t)
    ∧ cleanedOutput "```json\n\x7b\"a\":1\x7d\n```".toList = "\x7b\"a\":1\x7d".toList :=
  ⟨fun s hp hs => cleanedOutput_eq_self (pyStrip_cleanedOutput s) hp hs,
   fun t ht hp hs => cleanedOutput_eq_self ht hp hs,
   by decide⟩

/-- Closed instance of the C4 amended theorem at a fence-free input. -/
theorem cleanedOutput_conditional_idempotent_witness :
    cleanedOutput (cleanedOutput "abc".toList) = cleanedOutput "abc".toList :=
  cleanedOutput_conditional_idempotent.1 "abc".toList (by decide) (by decide)

/-- C3 (amended): for every repository whose sanitized agent output
parses as JSON, the save step writes the sanitized text verbatim under
the deterministic filename repoName-report.json. -/
theorem saveReportStep_sanitized_verbatim (repoName stdout : String) (j : Json)
    (h : parseJson (cleanedOutput stdout.toList) = some j) :
    saveReportStep repoName stdout
      = some (repoName ++ "-report.json", String.mk (cleanedOutput stdout.toList)) := by
  simp only [saveReportStep, report_filename]
  simp only [h]

/-- Closed instance of the C3 amended theorem. -/
theorem saveReportStep_sanitized_verbatim_witness :
    saveReportStep "alpha" "```json\n\x7b\"a\":1\x7d\n```"
      = some ("alpha" ++ "-report.json",
          String.mk (cleanedOutput "```json\n\x7b\"a\":1\x7d\n```".toList)) :=
  saveReportStep_sanitized_verbatim "alpha" _ (Json.obj [("a".toList, Json.num 1)])
    (by rfl)

/-- C3 counterexample: on a concrete fenced agent output the persisted
content is the sanitized text itself, which is not the pretty-printed
rendering of the parsed document. -/
theorem saveReportStep_not_prettyPrinted :
    saveReportStep "alpha" "```json\n\x7b\"a\":1\x7d\n```"
      = some ("alpha-report.json", "\x7b\"a\":1\x7d")
    ∧ parseJson "\x7b\"a\":1\x7d".toList = some (Json.obj [("a".toList, Json.num 1)])
    ∧ String.mk (dumpsIndent2 0 (Json.obj [("a".toList, Json.num 1)]))
        ≠ "\x7b\"a\":1\x7d" :=
  ⟨by rfl, by rfl, by decide⟩
